import Mathlib

/-!
Verification of the Kubernetes ingress provider
(`pkg/provider/kubernetes/ingress/kubernetes.go`).

The Go source is shallowly embedded: Go maps become association lists with
first-key lookup and in-place insertion, fallible calls return `Except`/sum
results, and a `nil`-pointer dereference (a Go panic) is modelled by the
`none` case of an `Option` result.  All definitions follow the source
line by line; names mirror the Go identifiers where Lean allows it.
-/

/-! ## Association-list model of Go maps -/

/-- Lookup in a Go map modelled as an association list (first match wins;
the lists built below never hold duplicate keys). -/
def mapLookup (k : String) : List (String × α) → Option α
  | [] => none
  | (k', v) :: rest => if k = k' then some v else mapLookup k rest

/-- Insertion into a Go map modelled as an association list: replace the
binding if the key is present, otherwise append it. -/
def mapInsert (k : String) (v : α) : List (String × α) → List (String × α)
  | [] => [(k, v)]
  | (k', v') :: rest => if k = k' then (k, v) :: rest else (k', v') :: mapInsert k v rest

/-! ## Output configuration types (package `config`) -/

/-- `config.Server`: one upstream target URL. -/
structure Config.Server where
  url : String
deriving DecidableEq

/-- `config.LoadBalancerService`. -/
structure Config.LoadBalancerService where
  servers : List Config.Server
  passHostHeader : Bool
deriving DecidableEq

/-- `config.Service` (only the load-balancer form is produced here). -/
structure Config.Service where
  loadBalancer : Config.LoadBalancerService
deriving DecidableEq

/-- `config.Router`: match rule, priority (zero when unset in Go) and the
key of the backing service. -/
structure Config.Router where
  rule : String
  priority : Int
  service : String
deriving DecidableEq

/-- `config.Middleware`: never populated by this provider. -/
structure Config.Middleware deriving DecidableEq

/-- `tls.Certificate`: certificate and key material as byte strings. -/
structure Tls.Certificate where
  certFile : String
  keyFile : String
deriving DecidableEq

/-- `tls.CertAndStores` (the provider never sets `Stores`). -/
structure Tls.CertAndStores where
  certificate : Tls.Certificate
  stores : List String
deriving DecidableEq

/-- `config.HTTPConfiguration`: routers, middlewares and services maps. -/
structure Config.HTTPConfiguration where
  routers : List (String × Config.Router)
  middlewares : List (String × Config.Middleware)
  services : List (String × Config.Service)
deriving DecidableEq

/-- `config.TCPConfiguration`: left empty by this provider. -/
structure Config.TCPConfiguration deriving DecidableEq

/-- `config.TLSConfiguration`: the certificate list. -/
structure Config.TLSConfiguration where
  certificates : List Tls.CertAndStores
deriving DecidableEq

/-- `config.Configuration`: the produced configuration (`TLS` is a nil-able
pointer in Go, hence `Option`). -/
structure Config.Configuration where
  http : Config.HTTPConfiguration
  tcp : Config.TCPConfiguration
  tls : Option Config.TLSConfiguration
deriving DecidableEq

/-- `config.Message` as sent on the configuration channel. -/
structure Config.Message where
  providerName : String
  configuration : Config.Configuration
deriving DecidableEq

/-! ## Kubernetes input types (packages `corev1`, `v1beta1`, `intstr`) -/

/-- `intstr.IntOrString`: a service-port selector, by number or by name. -/
inductive IntOrString where
  | int (value : Int)
  | str (value : String)
deriving DecidableEq

/-- `intstr.IntOrString.String()`. -/
def IntOrString.string : IntOrString → String
  | .int n => toString n
  | .str s => s

/-- `corev1.ServicePort`. -/
structure Corev1.ServicePort where
  name : String
  port : Int
deriving DecidableEq

/-- `corev1.ServiceSpec` (the fields the provider reads). -/
structure Corev1.ServiceSpec where
  type : String
  externalName : String
  ports : List Corev1.ServicePort
deriving DecidableEq

/-- `corev1.LoadBalancerIngress`. -/
structure Corev1.LoadBalancerIngress where
  ip : String
  hostname : String
deriving DecidableEq

/-- `corev1.LoadBalancerStatus`; `none` models a nil `Ingress` slice, which
the Go code distinguishes from an empty one. -/
structure Corev1.LoadBalancerStatus where
  ingress : Option (List Corev1.LoadBalancerIngress)
deriving DecidableEq

/-- `corev1.ServiceStatus`. -/
structure Corev1.ServiceStatus where
  loadBalancer : Corev1.LoadBalancerStatus
deriving DecidableEq

/-- `corev1.Service`. -/
structure Corev1.Service where
  spec : Corev1.ServiceSpec
  status : Corev1.ServiceStatus
deriving DecidableEq

/-- `corev1.EndpointPort`. -/
structure Corev1.EndpointPort where
  name : String
  port : Int
deriving DecidableEq

/-- `corev1.EndpointAddress`. -/
structure Corev1.EndpointAddress where
  ip : String
deriving DecidableEq

/-- `corev1.EndpointSubset`. -/
structure Corev1.EndpointSubset where
  addresses : List Corev1.EndpointAddress
  ports : List Corev1.EndpointPort
deriving DecidableEq

/-- `corev1.Endpoints`. -/
structure Corev1.Endpoints where
  subsets : List Corev1.EndpointSubset
deriving DecidableEq

/-- `corev1.Secret`: `Data map[string][]byte`, bytes kept as strings. -/
structure Corev1.Secret where
  data : List (String × String)
deriving DecidableEq

/-- `v1beta1.IngressBackend`. -/
structure V1beta1.IngressBackend where
  serviceName : String
  servicePort : IntOrString
deriving DecidableEq

/-- `v1beta1.HTTPIngressPath`. -/
structure V1beta1.HTTPIngressPath where
  path : String
  backend : V1beta1.IngressBackend
deriving DecidableEq

/-- `v1beta1.HTTPIngressRuleValue`. -/
structure V1beta1.HTTPIngressRuleValue where
  paths : List V1beta1.HTTPIngressPath
deriving DecidableEq

/-- `v1beta1.IngressRule`; `http` is a nil-able pointer in Go, hence
`Option` — the source dereferences it without a nil check. -/
structure V1beta1.IngressRule where
  host : String
  http : Option V1beta1.HTTPIngressRuleValue
deriving DecidableEq

/-- `v1beta1.IngressTLS` (the provider reads only `SecretName`). -/
structure V1beta1.IngressTLS where
  secretName : String
deriving DecidableEq

/-- `v1beta1.Ingress` (the fields the provider reads; `ns` is the
`Namespace` metadata field — `namespace` is reserved in Lean). -/
structure V1beta1.Ingress where
  name : String
  ns : String
  annotations : List (String × String)
  specRules : List V1beta1.IngressRule
  specBackend : Option V1beta1.IngressBackend
  specTLS : List V1beta1.IngressTLS
deriving DecidableEq

/-! ## The Kubernetes client interface -/

/-- Result of a Go `(value, exists, err)` triple: an error, a missing
object, or the object itself. -/
inductive GetResult (α : Type) where
  | err (msg : String)
  | notFound
  | found (value : α)

/-- The `Client` interface consumed by the provider.  `ingresses` is the
snapshot returned by `GetIngresses`; `updateIngressStatusResult` is the
error result of the status write (the write itself is a side effect outside
the model). -/
structure Client where
  ingresses : List V1beta1.Ingress
  getService : String → String → GetResult Corev1.Service
  getEndpoints : String → String → GetResult Corev1.Endpoints
  getSecret : String → String → GetResult Corev1.Secret
  updateIngressStatusResult : String → String → String → String → Except String Unit

/-! ## Provider settings -/

/-- `EndpointIngress`. -/
structure EndpointIngress where
  ip : String
  hostname : String
  publishedService : String
deriving DecidableEq

/-- The provider settings read during translation (`Provider` struct fields
other than client-construction settings). -/
structure Provider where
  ingressClass : String
  ingressEndpoint : Option EndpointIngress

/-- `annotationKubernetesIngressClass`. -/
def annotationKubernetesIngressClass : String := "kubernetes.io/ingress.class"

/-- `traefikDefaultIngressClass`. -/
def traefikDefaultIngressClass : String := "traefik"

/-- `corev1.ServiceTypeExternalName`. -/
def serviceTypeExternalName : String := "ExternalName"

/-- `math.MinInt32`. -/
def mathMinInt32 : Int := -(2 ^ 31)

/-! ## `checkStringQuoteValidity`

The source calls `strconv.Unquote("\"" + value + "\"")` and reports whether
it fails.  `unquoteOk` replays Go's double-quoted unquoting loop over the
characters between the quotes: an unescaped `"` or a raw newline is
invalid, a backslash must begin a valid Go escape sequence, everything else
is accepted. -/

/-- Hexadecimal digit test (Go `unhex`). -/
def isHexDigit (c : Char) : Bool :=
  ('0' ≤ c && c ≤ '9') || ('a' ≤ c && c ≤ 'f') || ('A' ≤ c && c ≤ 'F')

/-- Numeric value of a hexadecimal digit. -/
def hexVal (c : Char) : Nat :=
  if '0' ≤ c && c ≤ '9' then c.toNat - '0'.toNat
  else if 'a' ≤ c && c ≤ 'f' then c.toNat - 'a'.toNat + 10
  else if 'A' ≤ c && c ≤ 'F' then c.toNat - 'A'.toNat + 10
  else 0

/-- Octal digit test. -/
def isOctalDigit (c : Char) : Bool := '0' ≤ c && c ≤ '7'

/-- Numeric value of an octal digit. -/
def octVal (c : Char) : Nat := c.toNat - '0'.toNat

/-- One-character escapes accepted after a backslash inside a
double-quoted Go string literal. -/
def isSimpleEscape (c : Char) : Bool :=
  c = 'a' || c = 'b' || c = 'f' || c = 'n' || c = 'r' || c = 't' || c = 'v' ||
  c = '\\' || c = '"'

/-- Go's `strconv.Unquote` loop for the body of a double-quoted string:
`true` iff unquoting succeeds. -/
def unquoteOk : List Char → Bool
  | [] => true
  | c :: rest =>
    if c = '"' then false
    else if c = '\n' then false
    else if c = '\\' then
      match rest with
      | [] => false
      | e :: r2 =>
        if isSimpleEscape e then unquoteOk r2
        else if e = 'x' then
          match r2 with
          | h1 :: h2 :: r3 => isHexDigit h1 && isHexDigit h2 && unquoteOk r3
          | _ => false
        else if e = 'u' then
          match r2 with
          | h1 :: h2 :: h3 :: h4 :: r3 =>
            isHexDigit h1 && isHexDigit h2 && isHexDigit h3 && isHexDigit h4 &&
            unquoteOk r3
          | _ => false
        else if e = 'U' then
          match r2 with
          | h1 :: h2 :: h3 :: h4 :: h5 :: h6 :: h7 :: h8 :: r3 =>
            isHexDigit h1 && isHexDigit h2 && isHexDigit h3 && isHexDigit h4 &&
            isHexDigit h5 && isHexDigit h6 && isHexDigit h7 && isHexDigit h8 &&
            decide (hexVal h1 * 16 ^ 7 + hexVal h2 * 16 ^ 6 + hexVal h3 * 16 ^ 5 +
              hexVal h4 * 16 ^ 4 + hexVal h5 * 16 ^ 3 + hexVal h6 * 16 ^ 2 +
              hexVal h7 * 16 + hexVal h8 ≤ 1114111) &&
            unquoteOk r3
          | _ => false
        else if isOctalDigit e then
          match r2 with
          | o2 :: o3 :: r3 =>
            isOctalDigit o2 && isOctalDigit o3 &&
            decide (octVal e * 64 + octVal o2 * 8 + octVal o3 ≤ 255) &&
            unquoteOk r3
          | _ => false
        else false
    else unquoteOk rest

/-- `checkStringQuoteValidity`: `true` iff the Go function returns a nil
error. -/
def checkStringQuoteValidity (value : String) : Bool :=
  unquoteOk value.data

/-! ## `shouldProcessIngress` -/

/-- `shouldProcessIngress`. -/
def shouldProcessIngress (ingressClass : String) (classAnn : String) : Bool :=
  ingressClass == classAnn ||
    (ingressClass.length == 0 && classAnn == traefikDefaultIngressClass)

/-- The `ingress.Annotations[annotationKubernetesIngressClass]` access: a
missing key yields the empty string in Go. -/
def ingressClassAnn (i : V1beta1.Ingress) : String :=
  (mapLookup annotationKubernetesIngressClass i.annotations).getD ""

/-! ## `loadService` -/

/-- The per-subset loop of `loadService` for cluster services.  The `port`
accumulator mirrors the Go variable declared outside the loop: a subset
with a port entry named like the matched service port overwrites it, a
subset without one inherits the value left by earlier subsets, and a value
of zero after a subset aborts the whole resolution with
"cannot define a port". -/
def loadServiceSubsets (portName : String) : Int → List Corev1.EndpointSubset →
    Except String (List Config.Server)
  | _, [] => .ok []
  | port, subset :: rest =>
    let port' :=
      match subset.ports.find? (fun p => portName == p.name) with
      | some p => p.port
      | none => port
    if port' = 0 then .error "cannot define a port"
    else
      let protocol :=
        if port' == 443 || portName.startsWith "https" then "https" else "http"
      let here := subset.addresses.map
        (fun addr => Config.Server.mk (protocol ++ "://" ++ addr.ip ++ ":" ++ toString port'))
      match loadServiceSubsets portName port' rest with
      | .error e => .error e
      | .ok tail => .ok (here ++ tail)

/-- `loadService`: resolve an ingress backend to a load-balancer service. -/
def loadService (client : Client) (ns : String) (backend : V1beta1.IngressBackend) :
    Except String Config.Service :=
  match client.getService ns backend.serviceName with
  | .err e => .error e
  | .notFound => .error "service not found"
  | .found service =>
    match service.spec.ports.find?
        (fun p =>
          match backend.servicePort with
          | .int n => n == p.port
          | .str s => s == p.name) with
    | none => .error "service port not found"
    | some portSpec =>
      if service.spec.type == serviceTypeExternalName then
        .ok ⟨⟨[⟨"http://" ++ service.spec.externalName ++ ":" ++ toString portSpec.port⟩], true⟩⟩
      else
        match client.getEndpoints ns backend.serviceName with
        | .err e => .error e
        | .notFound => .error "endpoints not found"
        | .found endpoints =>
          if endpoints.subsets.isEmpty then .error "subset not found"
          else
            match loadServiceSubsets portSpec.name 0 endpoints.subsets with
            | .error e => .error e
            | .ok servers => .ok ⟨⟨servers, true⟩⟩

/-! ## TLS aggregation (`getTLS`, `getCertificateBlocks`, `getTLSConfig`) -/

/-- `getCertificateBlocks`: extract and validate the `tls.crt` / `tls.key`
entries of a secret. -/
def getCertificateBlocks (secret : Corev1.Secret) (ns secretName : String) :
    Except String (String × String) :=
  let tlsCrt := mapLookup "tls.crt" secret.data
  let tlsKey := mapLookup "tls.key" secret.data
  let missingEntries :=
    (if tlsCrt.isNone then ["tls.crt"] else []) ++
    (if tlsKey.isNone then ["tls.key"] else [])
  if missingEntries.isEmpty then
    let cert := tlsCrt.getD ""
    let key := tlsKey.getD ""
    let emptyEntries :=
      (if cert == "" then ["tls.crt"] else []) ++
      (if key == "" then ["tls.key"] else [])
    if emptyEntries.isEmpty then .ok (cert, key)
    else .error ("secret " ++ ns ++ "/" ++ secretName ++
      " contains the following empty TLS data entries: " ++
      String.intercalate ", " emptyEntries)
  else .error ("secret " ++ ns ++ "/" ++ secretName ++
    " is missing the following TLS data entries: " ++
    String.intercalate ", " missingEntries)

/-- The fetch-and-validate step of one TLS section of `getTLS` (the body
of its cache-miss branch, inlined in the source). -/
def fetchCert (client : Client) (ns secretName : String) :
    Except String Tls.CertAndStores :=
  match client.getSecret ns secretName with
  | .err e => .error ("failed to fetch secret " ++ ns ++ "/" ++ secretName ++ ": " ++ e)
  | .notFound => .error ("secret " ++ ns ++ "/" ++ secretName ++ " does not exist")
  | .found secret =>
    match getCertificateBlocks secret ns secretName with
    | .error e => .error e
    | .ok (cert, key) => .ok ⟨⟨cert, key⟩, []⟩

/-- The loop of `getTLS` over the ingress's TLS sections.  It returns the
updated cache and the error, if any; the Go function returns at the first
failing section, leaving the cache as accumulated so far. -/
def getTLSSections (client : Client) (ns : String) :
    List V1beta1.IngressTLS → List (String × Tls.CertAndStores) →
    List (String × Tls.CertAndStores) × Option String
  | [], tlsConfigs => (tlsConfigs, none)
  | t :: rest, tlsConfigs =>
    if t.secretName == "" then getTLSSections client ns rest tlsConfigs
    else
      let configKey := ns ++ "/" ++ t.secretName
      if (mapLookup configKey tlsConfigs).isSome then
        getTLSSections client ns rest tlsConfigs
      else
        match fetchCert client ns t.secretName with
        | .error e => (tlsConfigs, some e)
        | .ok certAndStores =>
          getTLSSections client ns rest (mapInsert configKey certAndStores tlsConfigs)

/-- `getTLS`. -/
def getTLS (client : Client) (i : V1beta1.Ingress)
    (tlsConfigs : List (String × Tls.CertAndStores)) :
    List (String × Tls.CertAndStores) × Option String :=
  getTLSSections client i.ns i.specTLS tlsConfigs

/-- `getTLSConfig`: emit the cached certificates sorted by their
`namespace/secretName` key. -/
def getTLSConfig (tlsConfigs : List (String × Tls.CertAndStores)) :
    List Tls.CertAndStores :=
  let secretNames := tlsConfigs.map Prod.fst
  let sorted := List.insertionSort (fun a b : String => a ≤ b) secretNames
  sorted.filterMap (fun secretName => mapLookup secretName tlsConfigs)

/-! ## `updateIngressStatus` -/

/-- `updateIngressStatus`.  The outer `Option` is `none` exactly when the
Go code would panic (indexing `Ingress[0]` of an existing, non-nil but
empty load-balancer status slice); otherwise the `Except` is the returned
error. -/
def updateIngressStatus (p : Provider) (i : V1beta1.Ingress) (client : Client) :
    Option (Except String Unit) :=
  match p.ingressEndpoint with
  | none => some (.ok ())
  | some endpointIngress =>
    if endpointIngress.publishedService.length == 0 then
      if endpointIngress.ip.length == 0 && endpointIngress.hostname.length == 0 then
        some (.error "publishedService or ip or hostname must be defined")
      else
        some (client.updateIngressStatusResult i.ns i.name endpointIngress.ip endpointIngress.hostname)
    else
      match endpointIngress.publishedService.splitOn "/" with
      | [serviceNamespace, serviceName] =>
        (match client.getService serviceNamespace serviceName with
         | .err e => some (.error ("cannot get service " ++
             endpointIngress.publishedService ++ ", received error: " ++ e))
         | .notFound => some (.error ("missing service: " ++ endpointIngress.publishedService))
         | .found service =>
           match service.status.loadBalancer.ingress with
           | none => some (.ok ())
           | some [] => none
           | some (first :: _) =>
             some (client.updateIngressStatusResult i.ns i.name first.ip first.hostname))
      | _ => some (.error ("invalid publishedService format (expected 'namespace/service' format): " ++
          endpointIngress.publishedService))

/-! ## `loadConfigurationFromIngresses` -/

/-- `strings.Replace(s, ".", "-", -1)` / `strings.ReplaceAll(s, ".", "-")`:
with a one-character pattern this is a character map. -/
def replaceDots (s : String) : String :=
  String.mk (s.data.map (fun c => if c == '.' then '-' else c))

/-- The synthesized service key
`namespace + "/" + serviceName + "/" + servicePort.String()` with every
`.` replaced by `-`. -/
def serviceKey (ns serviceName : String) (port : IntOrString) : String :=
  replaceDots (ns ++ "/" ++ serviceName ++ "/" ++ port.string)

/-- The mutable state accumulated by `loadConfigurationFromIngresses`:
the routers and services maps, the TLS cache, and the trace of
`updateIngressStatus` invocations (one `(namespace, name)` entry each). -/
structure PState where
  routers : List (String × Config.Router)
  services : List (String × Config.Service)
  tlsConfigs : List (String × Tls.CertAndStores)
  statusCalls : List (String × String)
deriving DecidableEq

/-- Processing of one `HTTPIngressPath`: resolve the backend (skip the
path on failure), validate the path string (skip on failure), then insert
the router and the service under their synthesized keys. -/
def processPath (client : Client) (i : V1beta1.Ingress) (host : String)
    (st : PState) (p : V1beta1.HTTPIngressPath) : PState :=
  match loadService client i.ns p.backend with
  | .error _ => st
  | .ok service =>
    if checkStringQuoteValidity p.path then
      let serviceName := serviceKey i.ns p.backend.serviceName p.backend.servicePort
      let rules :=
        (if 0 < host.length then ["Host(`" ++ host ++ "`)"] else []) ++
        (if 0 < p.path.length then ["PathPrefix(`" ++ p.path ++ "`)"] else [])
      { st with
        routers := mapInsert (replaceDots host ++ p.path)
          ⟨String.intercalate " && " rules, 0, serviceName⟩ st.routers,
        services := mapInsert serviceName service st.services }
    else st

/-- Processing of one `IngressRule`: an invalid host skips the rule
(including its status update); a nil `rule.HTTP` is dereferenced by the
source and panics (`none`); otherwise every path is processed and then
`updateIngressStatus` is invoked (its error is only logged). -/
def processRule (p : Provider) (client : Client) (i : V1beta1.Ingress)
    (st : PState) (rule : V1beta1.IngressRule) : Option PState :=
  if checkStringQuoteValidity rule.host then
    match rule.http with
    | none => none
    | some http =>
      let st1 := http.paths.foldl (processPath client i rule.host) st
      match updateIngressStatus p i client with
      | none => none
      | some _err => some { st1 with statusCalls := st1.statusCalls ++ [(i.ns, i.name)] }
  else some st

/-- The `for _, rule := range ingress.Spec.Rules` loop. -/
def foldRules (p : Provider) (client : Client) (i : V1beta1.Ingress) :
    PState → List V1beta1.IngressRule → Option PState
  | st, [] => some st
  | st, r :: rest =>
    match processRule p client i st r with
    | none => none
    | some st' => foldRules p client i st' rest

/-- The rule-independent part of one ingress: the no-rule default-backend
case followed by the rules loop (vacuous when there are no rules). -/
def processIngressRules (p : Provider) (client : Client) (i : V1beta1.Ingress)
    (st : PState) : Option PState :=
  if i.specRules.isEmpty then
    match i.specBackend with
    | none => some st
    | some backend =>
      if (mapLookup "default-backend" st.services).isSome then some st
      else
        match loadService client i.ns backend with
        | .error _ => some st
        | .ok service =>
          some { st with
                 routers := mapInsert "/" ⟨"PathPrefix(`/`)", mathMinInt32, "default-backend"⟩ st.routers,
                 services := mapInsert "default-backend" service st.services }
  else foldRules p client i st i.specRules

/-- Processing of one ingress of the snapshot: class filter, TLS
aggregation (its error is only logged), then the default-backend case and
the rules. -/
def processIngress (p : Provider) (client : Client) (st : PState)
    (i : V1beta1.Ingress) : Option PState :=
  if shouldProcessIngress p.ingressClass (ingressClassAnn i) then
    let tlsResult := getTLS client i st.tlsConfigs
    processIngressRules p client i { st with tlsConfigs := tlsResult.fst }
  else some st

/-- The `for _, ingress := range ingresses` loop; `none` propagates a
panic. -/
def foldIngresses (p : Provider) (client : Client) :
    PState → List V1beta1.Ingress → Option PState
  | st, [] => some st
  | st, i :: rest =>
    match processIngress p client st i with
    | none => none
    | some st' => foldIngresses p client st' rest

/-- The empty accumulated state at the start of a translation pass. -/
def initialPState : PState := ⟨[], [], [], []⟩

/-- The full translation pass over the snapshot, exposing the accumulated
state (`none` = the Go code panics). -/
def translateState (p : Provider) (client : Client) : Option PState :=
  foldIngresses p client initialPState client.ingresses

/-- `loadConfigurationFromIngresses`: assemble the produced configuration
(`none` = the Go code panics). -/
def loadConfigurationFromIngresses (p : Provider) (client : Client) :
    Option Config.Configuration :=
  (translateState p client).map (fun st =>
    let certs := getTLSConfig st.tlsConfigs
    { http := { routers := st.routers, middlewares := [], services := st.services },
      tcp := {},
      tls := if 0 < certs.length then some { certificates := certs } else none })

/-! ## The reconciliation loop (`Provide`) -/

/-- The loop-carried state of `Provide`: the `lastConfiguration` singleton
(`none` before the first publication, as `safe.Safe` starts empty) and the
sequence of messages sent on the configuration channel so far. -/
structure LoopState where
  lastConfiguration : Option Config.Configuration
  emitted : List Config.Message
deriving DecidableEq

/-- One turn of the event loop of `Provide` (lines 134-146): the freshly
computed configuration is compared by deep equality against
`lastConfiguration`; on equality the event is skipped, otherwise
`lastConfiguration` is replaced and exactly one message is emitted. -/
def processEvent (conf : Config.Configuration) (st : LoopState) : LoopState :=
  if st.lastConfiguration = some conf then st
  else { lastConfiguration := some conf,
         emitted := st.emitted ++ [⟨"kubernetes", conf⟩] }

/-! ## Concrete test data -/

/-- The provider settings with no ingress-class filter and no endpoint. -/
def providerDefault : Provider := ⟨"", none⟩

/-- The empty produced configuration. -/
def confEmpty : Config.Configuration := ⟨⟨[], [], []⟩, ⟨⟩, none⟩

/-- A produced configuration with one router, distinct from `confEmpty`. -/
def confOne : Config.Configuration :=
  ⟨⟨[("example-com/", ⟨"Host(`example.com`)", 0, "default/web/80"⟩)], [], []⟩, ⟨⟩, none⟩

/-- A backend reference to service `web`, port `80`. -/
def c4Backend : V1beta1.IngressBackend := ⟨"web", .int 80⟩

/-- A client whose service `default/web` is cluster-kind with one port
named `web` = 80, and whose endpoints have two subsets: the first with a
matching port entry (8080), the second with no port entries at all. -/
def c4Client : Client :=
  ⟨[],
   fun ns name =>
     if ns == "default" && name == "web" then
       .found ⟨⟨"ClusterIP", "", [⟨"web", 80⟩]⟩, ⟨⟨none⟩⟩⟩
     else .notFound,
   fun ns name =>
     if ns == "default" && name == "web" then
       .found ⟨[⟨[⟨"10.0.0.1"⟩], [⟨"web", 8080⟩]⟩, ⟨[⟨"10.0.0.2"⟩], []⟩]⟩
     else .notFound,
   fun _ _ => .notFound,
   fun _ _ _ _ => .ok ()⟩

/-- An ingress whose single rule declares a host but a nil `HTTP` section. -/
def c9Ingress : V1beta1.Ingress :=
  ⟨"host-only", "default", [(annotationKubernetesIngressClass, "traefik")],
   [⟨"example.com", none⟩], none, []⟩

/-- A client whose snapshot holds only `c9Ingress`. -/
def c9Client : Client :=
  ⟨[c9Ingress], fun _ _ => .notFound, fun _ _ => .notFound, fun _ _ => .notFound,
   fun _ _ _ _ => .ok ()⟩

/-- An ingress with two rules (hosts `a` and `b`), each with an HTTP
section holding no paths. -/
def c2Ingress : V1beta1.Ingress :=
  ⟨"ing1", "ns1", [(annotationKubernetesIngressClass, "traefik")],
   [⟨"a", some ⟨[]⟩⟩, ⟨"b", some ⟨[]⟩⟩], none, []⟩

/-- A client whose snapshot holds only `c2Ingress`. -/
def c2Client : Client :=
  ⟨[c2Ingress], fun _ _ => .notFound, fun _ _ => .notFound, fun _ _ => .notFound,
   fun _ _ _ _ => .ok ()⟩

/-- A client whose secret `ns/good` is well-formed and whose other secrets
do not exist. -/
def c5Client : Client :=
  ⟨[], fun _ _ => .notFound, fun _ _ => .notFound,
   fun ns name =>
     if ns == "ns" && name == "good" then
       .found ⟨[("tls.crt", "CERT"), ("tls.key", "KEY")]⟩
     else .notFound,
   fun _ _ _ _ => .ok ()⟩

/-- Characterization used to state claim C7: the backend service of the
first class-passing ingress in the list that declares a fallback backend
that `loadService` resolves successfully (candidates whose backend fails
to resolve are skipped, exactly as the source skips them). -/
def firstDefaultBackendService (p : Provider) (client : Client) :
    List V1beta1.Ingress → Option Config.Service
  | [] => none
  | i :: rest =>
    if shouldProcessIngress p.ingressClass (ingressClassAnn i) then
      match i.specBackend with
      | some backend =>
        (match loadService client i.ns backend with
         | .ok service => some service
         | .error _ => firstDefaultBackendService p client rest)
      | none => firstDefaultBackendService p client rest
    else firstDefaultBackendService p client rest

/-- A no-rule ingress with fallback backend `fallback1`. -/
def c7IngressA : V1beta1.Ingress :=
  ⟨"defaulta", "ns7", [(annotationKubernetesIngressClass, "traefik")], [],
   some ⟨"fallback1", .int 9000⟩, []⟩

/-- A second no-rule ingress with fallback backend `fallback2`. -/
def c7IngressB : V1beta1.Ingress :=
  ⟨"defaultb", "ns7", [(annotationKubernetesIngressClass, "traefik")], [],
   some ⟨"fallback2", .int 9000⟩, []⟩

/-- A client with two no-rule default-backend ingresses whose backends are
alias-kind (ExternalName) services, both resolving successfully. -/
def c7Client : Client :=
  ⟨[c7IngressA, c7IngressB],
   fun ns name =>
     if ns == "ns7" && (name == "fallback1" || name == "fallback2") then
       .found ⟨⟨"ExternalName", "external.example.org", [⟨"", 9000⟩]⟩, ⟨⟨none⟩⟩⟩
     else .notFound,
   fun _ _ => .notFound, fun _ _ => .notFound, fun _ _ _ _ => .ok ()⟩

/-- Characterization used to reason about claim C6: the certificate the
TLS cache ends up holding under key `k` after `getTLS` runs over the
section list `l` — the fetched certificate of the first section with a
non-empty secret name whose `namespace/secretName` key is `k`. -/
def specCacheLookup (client : Client) (ns : String) (l : List V1beta1.IngressTLS)
    (k : String) : Option Tls.CertAndStores :=
  (l.find? (fun t => !(t.secretName == "") && (ns ++ "/" ++ t.secretName == k))).bind
    (fun t => (fetchCert client ns t.secretName).toOption)

/-- A client with two well-formed secrets `ns/a-secret` and `ns/b-secret`. -/
def c6Client : Client :=
  ⟨[], fun _ _ => .notFound, fun _ _ => .notFound,
   fun ns name =>
     if ns == "ns" && (name == "a-secret" || name == "b-secret") then
       .found ⟨[("tls.crt", "CERT-" ++ name), ("tls.key", "KEY-" ++ name)]⟩
     else .notFound,
   fun _ _ _ _ => .ok ()⟩

/-! ## Generic association-list lemmas -/

theorem mapLookup_mapInsert (k k' : String) (v : α) :
    ∀ m : List (String × α),
      mapLookup k (mapInsert k' v m) = if k = k' then some v else mapLookup k m := by
  intro m
  induction m with
  | nil => simp [mapInsert, mapLookup]
  | cons hd tl ih =>
    obtain ⟨a, b⟩ := hd
    by_cases h1 : k' = a
    · subst h1
      by_cases h2 : k = k' <;> simp [mapInsert, mapLookup, h2]
    · by_cases h2 : k = a
      · subst h2
        have h2' : ¬k = k' := fun h => h1 h.symm
        simp [mapInsert, mapLookup, h1, h2']
      · simp [mapInsert, mapLookup, h1, h2, ih]

theorem mapLookup_isSome_iff_mem (k : String) :
    ∀ m : List (String × α), (mapLookup k m).isSome ↔ k ∈ m.map Prod.fst := by
  intro m
  induction m with
  | nil => simp [mapLookup]
  | cons hd tl ih =>
    obtain ⟨a, b⟩ := hd
    by_cases h : k = a <;> simp [mapLookup, h, ih]

theorem keys_mapInsert (k : String) (v : α) :
    ∀ m : List (String × α),
      (mapInsert k v m).map Prod.fst =
        if k ∈ m.map Prod.fst then m.map Prod.fst else m.map Prod.fst ++ [k] := by
  intro m
  induction m with
  | nil => simp [mapInsert]
  | cons hd tl ih =>
    obtain ⟨a, b⟩ := hd
    by_cases h : k = a
    · subst h; simp [mapInsert]
    · simp [mapInsert, h, ih, Ne.symm]
      split <;> simp [*]

theorem nodup_keys_mapInsert (k : String) (v : α) (m : List (String × α))
    (h : (m.map Prod.fst).Nodup) : ((mapInsert k v m).map Prod.fst).Nodup := by
  rw [keys_mapInsert]
  split
  · exact h
  · simp only [List.nodup_append, List.nodup_cons]
    exact ⟨h, by simp, by simpa using fun hk => ‹k ∉ m.map Prod.fst› hk⟩

/-! ## Reconciliation-loop lemmas -/

theorem processEvent_lastConfiguration (conf : Config.Configuration) (st : LoopState) :
    (processEvent conf st).lastConfiguration = some conf := by
  unfold processEvent
  split
  · assumption
  · rfl

/-- Claim C1: for consecutive change notifications, if the configuration
computed for the second equals the last-published one, no message is
emitted and the last-published configuration is unchanged; if it differs,
the last-published configuration is replaced and exactly one message
carrying it is emitted; in particular equal consecutive computed
configurations never produce two publications. -/
theorem provide_loop_publishes_only_on_change
    (st : LoopState) (conf1 conf2 : Config.Configuration) :
    ((processEvent conf1 st).lastConfiguration = some conf2 →
      processEvent conf2 (processEvent conf1 st) = processEvent conf1 st) ∧
    ((processEvent conf1 st).lastConfiguration ≠ some conf2 →
      (processEvent conf2 (processEvent conf1 st)).lastConfiguration = some conf2 ∧
      (processEvent conf2 (processEvent conf1 st)).emitted =
        (processEvent conf1 st).emitted ++ [⟨"kubernetes", conf2⟩]) ∧
    (conf2 = conf1 →
      (processEvent conf2 (processEvent conf1 st)).emitted =
        (processEvent conf1 st).emitted) := by
  have hskip : ∀ (c : Config.Configuration) (s : LoopState),
      s.lastConfiguration = some c → processEvent c s = s := by
    intro c s hc
    unfold processEvent
    rw [if_pos hc]
  have hpub : ∀ (c : Config.Configuration) (s : LoopState),
      s.lastConfiguration ≠ some c →
        processEvent c s = ⟨some c, s.emitted ++ [⟨"kubernetes", c⟩]⟩ := by
    intro c s hc
    unfold processEvent
    rw [if_neg hc]
  refine ⟨fun h => hskip conf2 _ h, fun h => ?_, fun h => ?_⟩
  · rw [hpub conf2 _ h]
    exact ⟨rfl, rfl⟩
  · subst h
    rw [hskip conf2 _ (processEvent_lastConfiguration conf2 st)]

/-- Witness for C1 at a concrete input: a repeated identical configuration
produces no second publication. -/
theorem provide_loop_publishes_only_on_change_witness :
    (processEvent confEmpty (processEvent confEmpty ⟨none, []⟩)).emitted =
      (processEvent confEmpty ⟨none, []⟩).emitted :=
  (provide_loop_publishes_only_on_change ⟨none, []⟩ confEmpty confEmpty).2.2 rfl

/-! ## Class-filter theorems (claim C3) -/

/-- Claim C3 counterexample: the claim asserts that with no filter
configured a resource whose class annotation is absent (empty) is not
processed, but `shouldProcessIngress` returns `true` for an empty filter
and an empty annotation, because the empty annotation exactly equals the
empty filter. -/
theorem shouldProcessIngress_empty_filter_empty_annotation_counterexample :
    shouldProcessIngress "" "" = true := by decide

/-- Claim C3 (amended): a resource is processed iff its class annotation
equals the configured filter, or the filter is empty and the annotation
equals the platform default class name `"traefik"`; with no filter
configured an absent (empty) annotation is therefore processed, since it
equals the empty filter. -/
theorem shouldProcessIngress_characterization (ingressClass classAnn : String) :
    shouldProcessIngress ingressClass classAnn = true ↔
      (classAnn = ingressClass ∨
        (ingressClass = "" ∧ classAnn = traefikDefaultIngressClass)) := by
  have hlen : (ingressClass.length == 0) = (ingressClass == "") := by
    cases ingressClass with
    | mk data => cases data <;> rfl
  unfold shouldProcessIngress
  rw [hlen]
  simp only [Bool.or_eq_true, Bool.and_eq_true, beq_iff_eq]
  constructor
  · rintro (h | h)
    · exact Or.inl h.symm
    · exact Or.inr h
  · rintro (h | h)
    · exact Or.inl h.symm
    · exact Or.inr h

/-! ## Service-resolution theorems (claim C4) -/

/-- Claim C4 counterexample: the second endpoint subset has no port entry
at all, yet the resolution does not fail for that subset — its address is
emitted with the port number found in the first subset.  The claim asserts
that a subset without a matching port entry fails and contributes no
targets. -/
theorem loadService_port_carry_over_counterexample :
    loadService c4Client "default" c4Backend =
      .ok ⟨⟨[⟨"http://10.0.0.1:8080"⟩, ⟨"http://10.0.0.2:8080"⟩], true⟩⟩ := by
  rfl

/-- Claim C4 (amended): a single port accumulator persists across subsets.
A subset whose port entries lack the matched name leaves it unchanged: if
it is still zero the WHOLE resolution fails with "cannot define a port"
(no per-subset isolation), and if it is non-zero the subset's addresses
are emitted with the port inherited from an earlier subset; successful
subsets are concatenated in encounter order. -/
theorem loadServiceSubsets_port_carry_over (portName : String) (port : Int)
    (subset : Corev1.EndpointSubset) (rest : List Corev1.EndpointSubset)
    (hnone : subset.ports.find? (fun q => portName == q.name) = none) :
    (port = 0 →
      loadServiceSubsets portName port (subset :: rest) = .error "cannot define a port") ∧
    (port ≠ 0 →
      loadServiceSubsets portName port (subset :: rest) =
        (loadServiceSubsets portName port rest).map (fun tail =>
          subset.addresses.map (fun addr =>
            Config.Server.mk
              ((if port == 443 || portName.startsWith "https" then "https" else "http") ++
                "://" ++ addr.ip ++ ":" ++ toString port)) ++ tail)) := by
  constructor
  · intro h
    subst h
    simp [loadServiceSubsets, hnone]
  · intro h
    simp only [loadServiceSubsets, hnone]
    rw [if_neg h]
    cases hrec : loadServiceSubsets portName port rest <;> simp [Except.map, hrec]

/-- Witness for the amended C4 at a concrete input: a subset with no port
entries, reached with accumulator 8080, emits its address at port 8080. -/
theorem loadServiceSubsets_port_carry_over_witness :
    loadServiceSubsets "web" 8080 [⟨[⟨"10.0.0.2"⟩], []⟩] = .ok [⟨"http://10.0.0.2:8080"⟩] := by
  have h := (loadServiceSubsets_port_carry_over "web" 8080 ⟨[⟨"10.0.0.2"⟩], []⟩ [] (by rfl)).2
    (by decide)
  rw [h]
  rfl

/-! ## Service-key theorems (claim C8) -/

/-- Claim C8 counterexample: two distinct backend references — service
`web.app` and service `web-app`, same namespace and port — synthesize the
same service key, because the sanitization replaces `.` by `-`. -/
theorem serviceKey_collision_counterexample :
    serviceKey "default" "web.app" (.int 80) = serviceKey "default" "web-app" (.int 80) ∧
    ("web.app" : String) ≠ "web-app" := by
  exact ⟨rfl, by decide⟩

/-! ## Totality theorem (claim C9) -/

/-- Claim C9 (code bug): translating a snapshot whose only ingress has a
rule with host `example.com` and a nil `HTTP` section does not return a
configuration — the source dereferences `rule.HTTP.Paths` without a nil
check and panics. -/
theorem translation_panics_on_nil_http_rule :
    loadConfigurationFromIngresses providerDefault c9Client = none := by
  rfl

/-! ## Empty-secret-name theorem (claim C10) -/

/-- Claim C10: a TLS section whose secret name is the empty string is
skipped silently: processing the section list starting with it is the same
as processing the remaining sections — the cache is untouched, no secret
fetch influences the outcome, no error is raised, and the remaining
sections of the same resource are still processed. -/
theorem getTLS_skips_empty_secret_name (client : Client) (ns : String)
    (rest : List V1beta1.IngressTLS) (cache : List (String × Tls.CertAndStores)) :
    getTLSSections client ns (⟨""⟩ :: rest) cache = getTLSSections client ns rest cache := by
  simp [getTLSSections]

/-! ## Status-reconciler invocation theorems (claim C2) -/

theorem processPath_statusCalls (client : Client) (i : V1beta1.Ingress) (host : String)
    (st : PState) (pa : V1beta1.HTTPIngressPath) :
    (processPath client i host st pa).statusCalls = st.statusCalls := by
  unfold processPath
  cases loadService client i.ns pa.backend with
  | error e => rfl
  | ok service =>
    dsimp only
    split <;> rfl

theorem foldPaths_statusCalls (client : Client) (i : V1beta1.Ingress) (host : String) :
    ∀ (paths : List V1beta1.HTTPIngressPath) (st : PState),
      (paths.foldl (processPath client i host) st).statusCalls = st.statusCalls := by
  intro paths
  induction paths with
  | nil => intro st; rfl
  | cons pa rest ih =>
    intro st
    rw [List.foldl_cons, ih, processPath_statusCalls]

theorem processRule_statusCalls (p : Provider) (client : Client) (i : V1beta1.Ingress)
    (st : PState) (rule : V1beta1.IngressRule) (hhttp : rule.http.isSome)
    (hstat : (updateIngressStatus p i client).isSome) :
    ∃ st', processRule p client i st rule = some st' ∧
      st'.statusCalls = st.statusCalls ++
        (if checkStringQuoteValidity rule.host then [(i.ns, i.name)] else []) := by
  unfold processRule
  by_cases hv : checkStringQuoteValidity rule.host
  · rw [if_pos hv]
    obtain ⟨http, hh⟩ := Option.isSome_iff_exists.mp hhttp
    rw [hh]
    obtain ⟨res, hres⟩ := Option.isSome_iff_exists.mp hstat
    dsimp only
    rw [hres]
    refine ⟨_, rfl, ?_⟩
    rw [if_pos hv]
    simp [foldPaths_statusCalls]
  · rw [if_neg hv]
    exact ⟨st, rfl, by rw [if_neg hv, List.append_nil]⟩

theorem foldRules_statusCalls (p : Provider) (client : Client) (i : V1beta1.Ingress) :
    ∀ (rules : List V1beta1.IngressRule) (st : PState),
      (∀ r ∈ rules, r.http.isSome) → (updateIngressStatus p i client).isSome →
      ∃ st', foldRules p client i st rules = some st' ∧
        st'.statusCalls = st.statusCalls ++
          List.replicate ((rules.filter (fun r => checkStringQuoteValidity r.host)).length)
            (i.ns, i.name) := by
  intro rules
  induction rules with
  | nil => intro st _ _; exact ⟨st, rfl, by simp⟩
  | cons r rest ih =>
    intro st hall hstat
    obtain ⟨st1, h1, hs1⟩ := processRule_statusCalls p client i st r (hall r (by simp)) hstat
    obtain ⟨st2, h2, hs2⟩ := ih st1 (fun r' hr' => hall r' (by simp [hr'])) hstat
    refine ⟨st2, ?_, ?_⟩
    · show (match processRule p client i st r with
        | none => none
        | some st' => foldRules p client i st' rest) = some st2
      rw [h1]
      exact h2
    · rw [hs2, hs1, List.filter_cons]
      by_cases hv : checkStringQuoteValidity r.host <;>
        simp [hv, List.replicate_succ, List.append_assoc]

theorem processIngressRules_statusCalls (p : Provider) (client : Client)
    (i : V1beta1.Ingress) (st : PState) (hhttp : ∀ r ∈ i.specRules, r.http.isSome)
    (hstat : (updateIngressStatus p i client).isSome) :
    ∃ st', processIngressRules p client i st = some st' ∧
      st'.statusCalls = st.statusCalls ++
        List.replicate ((i.specRules.filter (fun r => checkStringQuoteValidity r.host)).length)
          (i.ns, i.name) := by
  unfold processIngressRules
  by_cases hempty : i.specRules.isEmpty
  · rw [if_pos hempty]
    rw [List.isEmpty_iff.mp hempty]
    cases i.specBackend with
    | none => exact ⟨st, rfl, by simp⟩
    | some backend =>
      dsimp only
      split
      · exact ⟨st, rfl, by simp⟩
      · cases loadService client i.ns backend with
        | error e => exact ⟨st, rfl, by simp⟩
        | ok service => exact ⟨_, rfl, by simp⟩
  · rw [if_neg hempty]
    exact foldRules_statusCalls p client i i.specRules st hhttp hstat

/-- Claim C2 (amended): for a resource that passes the class filter, the
Status Reconciler (`updateIngressStatus`) is invoked once per RULE whose
host passes the quote-validity check, after that rule's paths have been
processed — not once per resource.  A resource with no rules, including
the no-rule default-backend case, never invokes it.  A reconciliation
failure is only logged: the result holds for every value the status call
returns. -/
theorem updateIngressStatus_once_per_valid_rule (p : Provider) (client : Client)
    (st : PState) (i : V1beta1.Ingress)
    (hclass : shouldProcessIngress p.ingressClass (ingressClassAnn i) = true)
    (hhttp : ∀ r ∈ i.specRules, r.http.isSome)
    (hstat : (updateIngressStatus p i client).isSome) :
    ∃ st', processIngress p client st i = some st' ∧
      st'.statusCalls = st.statusCalls ++
        List.replicate ((i.specRules.filter (fun r => checkStringQuoteValidity r.host)).length)
          (i.ns, i.name) := by
  unfold processIngress
  rw [if_pos hclass]
  obtain ⟨st', h', hs⟩ := processIngressRules_statusCalls p client i
    { st with tlsConfigs := (getTLS client i st.tlsConfigs).fst } hhttp hstat
  exact ⟨st', h', hs⟩

/-- Witness for the amended C2 at a concrete input: a resource with two
valid-host rules yields exactly two status invocations. -/
theorem updateIngressStatus_once_per_valid_rule_witness :
    (shouldProcessIngress providerDefault.ingressClass (ingressClassAnn c2Ingress) = true) ∧
    ∃ st', processIngress providerDefault c2Client initialPState c2Ingress = some st' ∧
      st'.statusCalls = initialPState.statusCalls ++
        List.replicate
          ((c2Ingress.specRules.filter (fun r => checkStringQuoteValidity r.host)).length)
          (c2Ingress.ns, c2Ingress.name) :=
  ⟨by decide, updateIngressStatus_once_per_valid_rule providerDefault c2Client initialPState
    c2Ingress (by decide) (by decide) (by decide)⟩

/-- Claim C2 counterexample: a snapshot with exactly one resource carrying
two rules produces two Status Reconciler invocations, not one — and the
trace shows both invocations name that single resource. -/
theorem updateIngressStatus_not_once_per_resource_counterexample :
    (translateState providerDefault c2Client).map PState.statusCalls =
      some [("ns1", "ing1"), ("ns1", "ing1")] ∧
    c2Client.ingresses.length = 1 := by
  exact ⟨rfl, rfl⟩

/-! ## TLS-failure isolation theorems (claim C5) -/

theorem processPath_setTLS (client : Client) (i : V1beta1.Ingress) (host : String)
    (st : PState) (pa : V1beta1.HTTPIngressPath) (t : List (String × Tls.CertAndStores)) :
    processPath client i host { st with tlsConfigs := t } pa =
      { processPath client i host st pa with tlsConfigs := t } := by
  unfold processPath
  cases loadService client i.ns pa.backend with
  | error e => rfl
  | ok service =>
    dsimp only
    split <;> rfl

theorem foldPaths_setTLS (client : Client) (i : V1beta1.Ingress) (host : String)
    (t : List (String × Tls.CertAndStores)) :
    ∀ (paths : List V1beta1.HTTPIngressPath) (st : PState),
      paths.foldl (processPath client i host) { st with tlsConfigs := t } =
        { paths.foldl (processPath client i host) st with tlsConfigs := t } := by
  intro paths
  induction paths with
  | nil => intro st; rfl
  | cons pa rest ih =>
    intro st
    rw [List.foldl_cons, List.foldl_cons, processPath_setTLS]
    exact ih (processPath client i host st pa)

theorem processRule_setTLS (p : Provider) (client : Client) (i : V1beta1.Ingress)
    (st : PState) (rule : V1beta1.IngressRule) (t : List (String × Tls.CertAndStores)) :
    processRule p client i { st with tlsConfigs := t } rule =
      (processRule p client i st rule).map (fun s => { s with tlsConfigs := t }) := by
  unfold processRule
  by_cases hv : checkStringQuoteValidity rule.host
  · rw [if_pos hv, if_pos hv]
    cases rule.http with
    | none => rfl
    | some http =>
      dsimp only
      rw [foldPaths_setTLS]
      cases updateIngressStatus p i client with
      | none => rfl
      | some res => rfl
  · rw [if_neg hv, if_neg hv]
    rfl

theorem foldRules_setTLS (p : Provider) (client : Client) (i : V1beta1.Ingress)
    (t : List (String × Tls.CertAndStores)) :
    ∀ (rules : List V1beta1.IngressRule) (st : PState),
      foldRules p client i { st with tlsConfigs := t } rules =
        (foldRules p client i st rules).map (fun s => { s with tlsConfigs := t }) := by
  intro rules
  induction rules with
  | nil => intro st; rfl
  | cons r rest ih =>
    intro st
    have hset := processRule_setTLS p client i st r t
    cases h : processRule p client i st r with
    | none =>
      rw [h, Option.map_none'] at hset
      simp only [foldRules]
      rw [hset, h]
      rfl
    | some st' =>
      rw [h, Option.map_some'] at hset
      simp only [foldRules]
      rw [hset, h]
      exact ih st'

theorem processIngressRules_setTLS (p : Provider) (client : Client) (i : V1beta1.Ingress)
    (st : PState) (t : List (String × Tls.CertAndStores)) :
    processIngressRules p client i { st with tlsConfigs := t } =
      (processIngressRules p client i st).map (fun s => { s with tlsConfigs := t }) := by
  unfold processIngressRules
  by_cases hempty : i.specRules.isEmpty
  · rw [if_pos hempty, if_pos hempty]
    cases i.specBackend with
    | none => rfl
    | some backend =>
      dsimp only
      split
      · rfl
      · cases loadService client i.ns backend with
        | error e => rfl
        | ok service => rfl
  · rw [if_neg hempty, if_neg hempty]
    exact foldRules_setTLS p client i t i.specRules st

/-- Claim C5 (amended), two parts.  (1) A failing TLS section (non-empty
secret name, key not yet cached, fetch/validation error) makes `getTLS`
return at once: the error is reported, the cache keeps exactly the entries
accumulated before the failure, and the REMAINING sections of the same
resource are NOT processed.  (2) The TLS step is isolated from the rest of
translation: whatever `getTLS` does — including failing — the routers,
services and status calls produced for the resource are exactly those of
the rule-processing step alone, so the resource's routers and the rest of
the run are unaffected. -/
theorem getTLS_failure_isolation :
    (∀ (client : Client) (ns : String) (t : V1beta1.IngressTLS)
        (rest : List V1beta1.IngressTLS) (cache : List (String × Tls.CertAndStores))
        (e : String),
      t.secretName ≠ "" →
      mapLookup (ns ++ "/" ++ t.secretName) cache = none →
      fetchCert client ns t.secretName = .error e →
      getTLSSections client ns (t :: rest) cache = (cache, some e)) ∧
    (∀ (p : Provider) (client : Client) (st : PState) (i : V1beta1.Ingress),
      shouldProcessIngress p.ingressClass (ingressClassAnn i) = true →
      (processIngress p client st i).map (fun s => (s.routers, s.services, s.statusCalls)) =
        (processIngressRules p client i st).map
          (fun s => (s.routers, s.services, s.statusCalls))) := by
  constructor
  · intro client ns t rest cache e hne hlook hfetch
    have hbeq : (t.secretName == "") = false := by
      simpa using hne
    simp only [getTLSSections, hbeq, Bool.false_eq_true, if_false, hlook,
      Option.isSome_none, hfetch]
  · intro p client st i hclass
    unfold processIngress
    rw [if_pos hclass]
    rw [processIngressRules_setTLS]
    cases processIngressRules p client i st with
    | none => rfl
    | some s => rfl

/-- Claim C5 counterexample: a resource whose TLS sections are
`[bad, good]` — `bad` missing, `good` perfectly valid — caches NOTHING:
the failure on `bad` aborts the whole loop, so `good` is neither fetched
nor cached, contradicting "the remaining TLS sections of the same resource
are still processed and cached". -/
theorem getTLS_aborts_remaining_sections_counterexample :
    getTLSSections c5Client "ns" [⟨"bad"⟩, ⟨"good"⟩] [] =
      ([], some "secret ns/bad does not exist") ∧
    fetchCert c5Client "ns" "good" = .ok ⟨⟨"CERT", "KEY"⟩, []⟩ := by
  exact ⟨rfl, rfl⟩

/-- Witness for the amended C5 at a concrete input: a failing first
section leaves the previously cached entry untouched and reports the
fetch error. -/
theorem getTLS_failure_isolation_witness :
    getTLSSections c5Client "ns" [⟨"missing"⟩] [("k", ⟨⟨"C", "K"⟩, []⟩)] =
      ([("k", ⟨⟨"C", "K"⟩, []⟩)], some "secret ns/missing does not exist") :=
  getTLS_failure_isolation.1 c5Client "ns" ⟨"missing"⟩ [] [("k", ⟨⟨"C", "K"⟩, []⟩)]
    "secret ns/missing does not exist" (by decide) (by rfl) (by rfl)

/-! ## Default-backend theorems (claim C7) -/

theorem processIngress_noRule (p : Provider) (client : Client) (st : PState)
    (i : V1beta1.Ingress) (hi : i.specRules = []) :
    processIngress p client st i =
      (if shouldProcessIngress p.ingressClass (ingressClassAnn i) then
        (match i.specBackend with
         | none => some { st with tlsConfigs := (getTLS client i st.tlsConfigs).fst }
         | some backend =>
           if (mapLookup "default-backend" st.services).isSome then
             some { st with tlsConfigs := (getTLS client i st.tlsConfigs).fst }
           else
             match loadService client i.ns backend with
             | .error _ => some { st with tlsConfigs := (getTLS client i st.tlsConfigs).fst }
             | .ok service =>
               some { st with
                      tlsConfigs := (getTLS client i st.tlsConfigs).fst,
                      routers := mapInsert "/"
                        ⟨"PathPrefix(`/`)", mathMinInt32, "default-backend"⟩ st.routers,
                      services := mapInsert "default-backend" service st.services })
       else some st) := by
  unfold processIngress processIngressRules
  by_cases hc : shouldProcessIngress p.ingressClass (ingressClassAnn i)
  · rw [if_pos hc, if_pos hc, hi]
    rfl
  · rw [if_neg hc, if_neg hc]

theorem foldIngresses_default_registered (p : Provider) (client : Client) :
    ∀ (ingresses : List V1beta1.Ingress) (st : PState),
      (∀ i ∈ ingresses, i.specRules = []) →
      (mapLookup "default-backend" st.services).isSome →
      ∃ st', foldIngresses p client st ingresses = some st' ∧
        st'.services = st.services ∧ st'.routers = st.routers := by
  intro ingresses
  induction ingresses with
  | nil => intro st _ _; exact ⟨st, rfl, rfl, rfl⟩
  | cons i rest ih =>
    intro st hall hreg
    have hi : i.specRules = [] := hall i (by simp)
    have hstep : ∃ st1, processIngress p client st i = some st1 ∧
        st1.services = st.services ∧ st1.routers = st.routers := by
      rw [processIngress_noRule p client st i hi]
      by_cases hc : shouldProcessIngress p.ingressClass (ingressClassAnn i)
      · rw [if_pos hc]
        cases i.specBackend with
        | none => exact ⟨_, rfl, rfl, rfl⟩
        | some backend =>
          dsimp only
          rw [if_pos hreg]
          exact ⟨_, rfl, rfl, rfl⟩
      · rw [if_neg hc]
        exact ⟨st, rfl, rfl, rfl⟩
    obtain ⟨st1, h1, hs1, hr1⟩ := hstep
    obtain ⟨st', h', hs', hr'⟩ := ih st1 (fun j hj => hall j (by simp [hj]))
      (by rw [hs1]; exact hreg)
    refine ⟨st', ?_, by rw [hs', hs1], by rw [hr', hr1]⟩
    simp only [foldIngresses]
    rw [h1]
    exact h'

theorem foldIngresses_default_first (p : Provider) (client : Client) :
    ∀ (ingresses : List V1beta1.Ingress) (st : PState),
      (∀ i ∈ ingresses, i.specRules = []) →
      st.services = [] → st.routers = [] →
      ∃ st', foldIngresses p client st ingresses = some st' ∧
        st'.services = (match firstDefaultBackendService p client ingresses with
          | none => []
          | some s => [("default-backend", s)]) ∧
        st'.routers = (match firstDefaultBackendService p client ingresses with
          | none => []
          | some _ => [("/", ⟨"PathPrefix(`/`)", mathMinInt32, "default-backend"⟩)]) := by
  intro ingresses
  induction ingresses with
  | nil =>
    intro st _ hs hr
    exact ⟨st, rfl, by rw [hs]; rfl, by rw [hr]; rfl⟩
  | cons i rest ih =>
    intro st hall hs hr
    have hi : i.specRules = [] := hall i (by simp)
    have hrest : ∀ j ∈ rest, j.specRules = [] := fun j hj => hall j (by simp [hj])
    by_cases hc : shouldProcessIngress p.ingressClass (ingressClassAnn i)
    · cases hb : i.specBackend with
      | none =>
        have hfd : firstDefaultBackendService p client (i :: rest) =
            firstDefaultBackendService p client rest := by
          simp only [firstDefaultBackendService]
          rw [if_pos hc, hb]
        obtain ⟨st', h', hs', hr'⟩ := ih { st with tlsConfigs := (getTLS client i st.tlsConfigs).fst }
          hrest hs hr
        refine ⟨st', ?_, ?_, ?_⟩
        · simp only [foldIngresses]
          rw [processIngress_noRule p client st i hi, if_pos hc, hb]
          exact h'
        · rw [hs', hfd]
        · rw [hr', hfd]
      | some backend =>
        have hlook : (mapLookup "default-backend" st.services).isSome = false := by
          rw [hs]; rfl
        cases hl : loadService client i.ns backend with
        | error e =>
          have hfd : firstDefaultBackendService p client (i :: rest) =
              firstDefaultBackendService p client rest := by
            simp only [firstDefaultBackendService]
            rw [if_pos hc, hb]
            dsimp only
            rw [hl]
          obtain ⟨st', h', hs', hr'⟩ := ih { st with tlsConfigs := (getTLS client i st.tlsConfigs).fst }
            hrest hs hr
          refine ⟨st', ?_, ?_, ?_⟩
          · simp only [foldIngresses]
            rw [processIngress_noRule p client st i hi, if_pos hc, hb]
            dsimp only
            rw [if_neg (by rw [hlook]; simp), hl]
            exact h'
          · rw [hs', hfd]
          · rw [hr', hfd]
        | ok service =>
          have hfd : firstDefaultBackendService p client (i :: rest) = some service := by
            simp only [firstDefaultBackendService]
            rw [if_pos hc, hb]
            dsimp only
            rw [hl]
          obtain ⟨st', h', hs', hr'⟩ := foldIngresses_default_registered p client rest
            { st with
              tlsConfigs := (getTLS client i st.tlsConfigs).fst,
              routers := mapInsert "/"
                ⟨"PathPrefix(`/`)", mathMinInt32, "default-backend"⟩ st.routers,
              services := mapInsert "default-backend" service st.services }
            hrest (by dsimp only; rw [hs]; rfl)
          refine ⟨st', ?_, ?_, ?_⟩
          · simp only [foldIngresses]
            rw [processIngress_noRule p client st i hi, if_pos hc, hb]
            dsimp only
            rw [if_neg (by rw [hlook]; simp), hl]
            exact h'
          · rw [hs', hfd]
            dsimp only
            rw [hs]
            rfl
          · rw [hr', hfd]
            dsimp only
            rw [hr]
            rfl
    · have hfd : firstDefaultBackendService p client (i :: rest) =
          firstDefaultBackendService p client rest := by
        simp only [firstDefaultBackendService]
        rw [if_neg hc]
      obtain ⟨st', h', hs', hr'⟩ := ih st hrest hs hr
      refine ⟨st', ?_, ?_, ?_⟩
      · simp only [foldIngresses]
        rw [processIngress_noRule p client st i hi, if_neg hc]
        exact h'
      · rw [hs', hfd]
      · rw [hr', hfd]

/-- Claim C7: in a snapshot of no-rule resources, only the FIRST
class-passing resource whose fallback backend resolves registers the
default backend: the final services map holds exactly the synthesized
`default-backend` service built from that resource's backend, and the
final routers map holds exactly the always-matching `PathPrefix` router
at the minimum possible priority bound to it; every subsequent default is
dropped, and translation completes without aborting. -/
theorem default_backend_first_registration_wins (p : Provider) (client : Client)
    (hNoRule : ∀ i ∈ client.ingresses, i.specRules = []) :
    ∃ st, translateState p client = some st ∧
      st.services = (match firstDefaultBackendService p client client.ingresses with
        | none => []
        | some s => [("default-backend", s)]) ∧
      st.routers = (match firstDefaultBackendService p client client.ingresses with
        | none => []
        | some _ => [("/", ⟨"PathPrefix(`/`)", mathMinInt32, "default-backend"⟩)]) :=
  foldIngresses_default_first p client client.ingresses initialPState hNoRule rfl rfl

/-- Witness for C7 at a concrete input: two no-rule default-backend
resources with resolving alias-kind backends; only the first registers. -/
theorem default_backend_first_registration_wins_witness :
    (∀ i ∈ c7Client.ingresses, i.specRules = []) ∧
    ∃ st, translateState providerDefault c7Client = some st ∧
      st.services = (match firstDefaultBackendService providerDefault c7Client c7Client.ingresses with
        | none => []
        | some s => [("default-backend", s)]) ∧
      st.routers = (match firstDefaultBackendService providerDefault c7Client c7Client.ingresses with
        | none => []
        | some _ => [("/", ⟨"PathPrefix(`/`)", mathMinInt32, "default-backend"⟩)]) :=
  ⟨by decide, default_backend_first_registration_wins providerDefault c7Client (by decide)⟩

/-! ## Service-key injectivity (claim C8, amended) -/

theorem replaceDots_data (s : String) :
    (replaceDots s).data = s.data.map (fun c => if c == '.' then '-' else c) := rfl

theorem map_sanitize_eq_self (l : List Char) (h : ∀ c ∈ l, c ≠ '.') :
    l.map (fun c => if c == '.' then '-' else c) = l := by
  induction l with
  | nil => rfl
  | cons c cs ih =>
    have hc : (c == '.') = false := by
      simpa using h c (by simp)
    simp only [List.map_cons, hc, Bool.false_eq_true, if_false]
    rw [ih (fun c' hc' => h c' (by simp [hc']))]

theorem sep_inj : ∀ (a b t1 t2 : List Char), '/' ∉ a → '/' ∉ b →
    a ++ '/' :: t1 = b ++ '/' :: t2 → a = b ∧ t1 = t2 := by
  intro a
  induction a with
  | nil =>
    intro b t1 t2 _ hb heq
    cases b with
    | nil => simpa using heq
    | cons y ys =>
      exfalso
      simp only [List.nil_append, List.cons_append, List.cons.injEq] at heq
      exact hb (by rw [← heq.1]; simp)
  | cons x xs ih =>
    intro b t1 t2 ha hb heq
    cases b with
    | nil =>
      exfalso
      simp only [List.nil_append, List.cons_append, List.cons.injEq] at heq
      exact ha (by rw [heq.1]; simp)
    | cons y ys =>
      simp only [List.cons_append, List.cons.injEq] at heq
      obtain ⟨hx, heq2⟩ := heq
      obtain ⟨hb1, hb2⟩ := ih ys t1 t2 (fun hm => ha (by simp [hm]))
        (fun hm => hb (by simp [hm])) heq2
      exact ⟨by rw [hx, hb1], hb2⟩

/-- Claim C8 (amended): the synthesized service key is injective on
references whose namespace, service name and port-selector string are free
of `.` and `/` — for such references the key determines all three
components, so two distinct ports of the same service (distinct selector
strings) never collide.  (The counterexample shows the restriction is
necessary: `.`-containing components can collide after sanitization.) -/
theorem serviceKey_injective_on_sanitized
    (ns1 n1 : String) (p1 : IntOrString) (ns2 n2 : String) (p2 : IntOrString)
    (h1 : ∀ c ∈ ns1.data, c ≠ '.' ∧ c ≠ '/') (h2 : ∀ c ∈ n1.data, c ≠ '.' ∧ c ≠ '/')
    (h3 : ∀ c ∈ p1.string.data, c ≠ '.' ∧ c ≠ '/')
    (h4 : ∀ c ∈ ns2.data, c ≠ '.' ∧ c ≠ '/') (h5 : ∀ c ∈ n2.data, c ≠ '.' ∧ c ≠ '/')
    (h6 : ∀ c ∈ p2.string.data, c ≠ '.' ∧ c ≠ '/') :
    serviceKey ns1 n1 p1 = serviceKey ns2 n2 p2 ↔
      (ns1 = ns2 ∧ n1 = n2 ∧ p1.string = p2.string) := by
  constructor
  · intro h
    have hdata := congrArg String.data h
    unfold serviceKey at hdata
    rw [replaceDots_data, replaceDots_data] at hdata
    have k1 : (ns1 ++ "/" ++ n1 ++ "/" ++ p1.string).data =
        ns1.data ++ '/' :: (n1.data ++ '/' :: p1.string.data) := by
      simp [String.data_append]
    have k2 : (ns2 ++ "/" ++ n2 ++ "/" ++ p2.string).data =
        ns2.data ++ '/' :: (n2.data ++ '/' :: p2.string.data) := by
      simp [String.data_append]
    rw [k1, k2] at hdata
    have hall1 : ∀ c ∈ ns1.data ++ '/' :: (n1.data ++ '/' :: p1.string.data), c ≠ '.' := by
      intro c hc
      rcases List.mem_append.mp hc with hm | hm
      · exact (h1 c hm).1
      · rcases List.mem_cons.mp hm with rfl | hm'
        · decide
        · rcases List.mem_append.mp hm' with hm'' | hm''
          · exact (h2 c hm'').1
          · rcases List.mem_cons.mp hm'' with rfl | hm3
            · decide
            · exact (h3 c hm3).1
    have hall2 : ∀ c ∈ ns2.data ++ '/' :: (n2.data ++ '/' :: p2.string.data), c ≠ '.' := by
      intro c hc
      rcases List.mem_append.mp hc with hm | hm
      · exact (h4 c hm).1
      · rcases List.mem_cons.mp hm with rfl | hm'
        · decide
        · rcases List.mem_append.mp hm' with hm'' | hm''
          · exact (h5 c hm'').1
          · rcases List.mem_cons.mp hm'' with rfl | hm3
            · decide
            · exact (h6 c hm3).1
    rw [map_sanitize_eq_self _ hall1, map_sanitize_eq_self _ hall2] at hdata
    obtain ⟨e1, erest⟩ := sep_inj _ _ _ _
      (fun hm => (h1 '/' hm).2 rfl) (fun hm => (h4 '/' hm).2 rfl) hdata
    obtain ⟨e2, e3⟩ := sep_inj _ _ _ _
      (fun hm => (h2 '/' hm).2 rfl) (fun hm => (h5 '/' hm).2 rfl) erest
    have hext : ∀ (a b : String), a.data = b.data → a = b := by
      intro a b hd
      cases a
      cases b
      exact congrArg String.mk (by simpa using hd)
    exact ⟨hext _ _ e1, hext _ _ e2, hext _ _ e3⟩
  · rintro ⟨e1, e2, e3⟩
    unfold serviceKey
    rw [e1, e2, e3]

/-- Witness for the amended C8 at a concrete input: two distinct ports of
the same sanitization-free service yield distinct keys. -/
theorem serviceKey_injective_on_sanitized_witness :
    serviceKey "default" "web" (.int 80) ≠ serviceKey "default" "web" (.int 8080) := by
  intro h
  have hinj := (serviceKey_injective_on_sanitized "default" "web" (.int 80)
    "default" "web" (.int 8080) (by decide) (by decide) (by decide)
    (by decide) (by decide) (by decide)).mp h
  exact absurd hinj.2.2 (by decide)

/-! ## TLS determinism (claim C6) -/

theorem string_eq_of_data_eq (a b : String) (h : a.data = b.data) : a = b := by
  cases a
  cases b
  exact congrArg String.mk (by simpa using h)

theorem string_append_left_cancel (a b c : String) (h : a ++ b = a ++ c) : b = c := by
  have hd := congrArg String.data h
  rw [String.data_append, String.data_append] at hd
  exact string_eq_of_data_eq _ _ (List.append_cancel_left hd)

theorem getTLSSections_nodupKeys (client : Client) (ns : String) :
    ∀ (l : List V1beta1.IngressTLS) (cache : List (String × Tls.CertAndStores)),
      (cache.map Prod.fst).Nodup →
      (((getTLSSections client ns l cache).1).map Prod.fst).Nodup := by
  intro l
  induction l with
  | nil => intro cache h; exact h
  | cons t rest ih =>
    intro cache h
    by_cases hbeq : (t.secretName == "") = true
    · simp only [getTLSSections, hbeq, if_true]
      exact ih cache h
    · simp only [getTLSSections, hbeq, Bool.false_eq_true, if_false]
      by_cases hl : (mapLookup (ns ++ "/" ++ t.secretName) cache).isSome = true
      · rw [if_pos hl]
        exact ih cache h
      · rw [if_neg hl]
        cases hf : fetchCert client ns t.secretName with
        | error e => exact h
        | ok c => exact ih _ (nodup_keys_mapInsert _ c cache h)

theorem getTLSSections_lookup (client : Client) (ns : String) :
    ∀ (l : List V1beta1.IngressTLS) (cache : List (String × Tls.CertAndStores)) (k : String),
      (∀ t ∈ l, t.secretName ≠ "" → ∃ c, fetchCert client ns t.secretName = .ok c) →
      mapLookup k (getTLSSections client ns l cache).1 =
        (mapLookup k cache).or (specCacheLookup client ns l k) := by
  intro l
  induction l with
  | nil =>
    intro cache k _
    simp [getTLSSections, specCacheLookup, Option.or_none]
  | cons t rest ih =>
    intro cache k hgood
    have hgoodRest : ∀ t' ∈ rest, t'.secretName ≠ "" →
        ∃ c, fetchCert client ns t'.secretName = .ok c :=
      fun t' ht' => hgood t' (by simp [ht'])
    by_cases hbeq : (t.secretName == "") = true
    · have hspec : specCacheLookup client ns (t :: rest) k = specCacheLookup client ns rest k := by
        simp only [specCacheLookup, List.find?_cons, hbeq, Bool.not_true, Bool.false_and]
      simp only [getTLSSections, hbeq, if_true]
      rw [ih cache k hgoodRest, hspec]
    · have hkey : specCacheLookup client ns (t :: rest) k =
          (if (ns ++ "/" ++ t.secretName == k) = true then
            (fetchCert client ns t.secretName).toOption
          else specCacheLookup client ns rest k) := by
        simp only [specCacheLookup, List.find?_cons, hbeq, Bool.not_false, Bool.true_and]
        by_cases hk : (ns ++ "/" ++ t.secretName == k) = true
        · rw [hk]
          simp
        · rw [if_neg hk]
          have hkf : (ns ++ "/" ++ t.secretName == k) = false := by simpa using hk
          rw [hkf]
      simp only [getTLSSections, hbeq, Bool.false_eq_true, if_false]
      by_cases hl : (mapLookup (ns ++ "/" ++ t.secretName) cache).isSome = true
      · rw [if_pos hl]
        rw [ih cache k hgoodRest, hkey]
        by_cases hk : (ns ++ "/" ++ t.secretName == k) = true
        · rw [if_pos hk]
          have hkk : ns ++ "/" ++ t.secretName = k := by simpa using hk
          rw [hkk] at hl
          obtain ⟨v, hv⟩ := Option.isSome_iff_exists.mp hl
          rw [hv]
          rfl
        · rw [if_neg hk]
      · rw [if_neg hl]
        have hne : t.secretName ≠ "" := by simpa using hbeq
        obtain ⟨c, hc⟩ := hgood t (by simp) hne
        rw [hc]
        rw [ih _ k hgoodRest, hkey]
        rw [mapLookup_mapInsert]
        by_cases hk : k = ns ++ "/" ++ t.secretName
        · rw [if_pos hk]
          have hk' : (ns ++ "/" ++ t.secretName == k) = true := by simp [hk]
          rw [if_pos hk']
          have : mapLookup k cache = none := by
            rw [hk]
            cases hml : mapLookup (ns ++ "/" ++ t.secretName) cache with
            | none => rfl
            | some v => rw [hml] at hl; simp at hl
          rw [this, Option.none_or, hc]
          rfl
        · rw [if_neg hk]
          have hk' : (ns ++ "/" ++ t.secretName == k) = false := by
            simp
            exact fun h => hk h.symm
          rw [hk', if_neg (by simp)]

theorem specCacheLookup_perm (client : Client) (ns : String)
    (l1 l2 : List V1beta1.IngressTLS) (hperm : l1.Perm l2) (k : String) :
    specCacheLookup client ns l1 k = specCacheLookup client ns l2 k := by
  unfold specCacheLookup
  cases hf1 : l1.find? (fun t => !(t.secretName == "") && (ns ++ "/" ++ t.secretName == k)) with
  | none =>
    have hf2 : l2.find? (fun t => !(t.secretName == "") && (ns ++ "/" ++ t.secretName == k)) = none := by
      rw [List.find?_eq_none] at hf1 ⊢
      exact fun x hx => hf1 x (hperm.mem_iff.mpr hx)
    rw [hf2]
  | some t =>
    have hpt := List.find?_some hf1
    have hmem : t ∈ l2 := hperm.mem_iff.mp (List.mem_of_find?_eq_some hf1)
    have : (l2.find? (fun t => !(t.secretName == "") && (ns ++ "/" ++ t.secretName == k))).isSome := by
      rw [List.find?_isSome]
      exact ⟨t, hmem, hpt⟩
    obtain ⟨t', hf2⟩ := Option.isSome_iff_exists.mp this
    have hpt' := List.find?_some hf2
    have hname : t.secretName = t'.secretName := by
      have e1 : ns ++ "/" ++ t.secretName = k := by
        have := (Bool.and_eq_true _ _).mp hpt
        simpa using this.2
      have e2 : ns ++ "/" ++ t'.secretName = k := by
        have := (Bool.and_eq_true _ _).mp hpt'
        simpa using this.2
      exact string_append_left_cancel (ns ++ "/") _ _ (e1.trans e2.symm)
    rw [hf2]
    show (fetchCert client ns t.secretName).toOption = (fetchCert client ns t'.secretName).toOption
    rw [hname]

theorem length_filterMap_of_isSome {α β : Type} (f : α → Option β) :
    ∀ l : List α, (∀ a ∈ l, (f a).isSome) → (l.filterMap f).length = l.length := by
  intro l
  induction l with
  | nil => intro _; rfl
  | cons a rest ih =>
    intro h
    obtain ⟨b, hb⟩ := Option.isSome_iff_exists.mp (h a (by simp))
    rw [List.filterMap_cons, hb]
    simp [ih (fun x hx => h x (by simp [hx]))]

/-- Claim C6: over one translation pass (one run of the TLS aggregation
over a list of sections whose non-empty secrets all resolve), the
produced certificate list (1) is the same for any permutation of the
references — the same set of referenced secrets yields the same list
regardless of the order in which resources reference them — and (2) is
emitted along a strictly increasing (hence duplicate-free) enumeration of
the accumulated `namespace/secretName` keys: at most one entry per
distinct key, sorted lexicographically. -/
theorem getTLSConfig_sorted_dedup_deterministic
    (client : Client) (ns : String) (l1 l2 : List V1beta1.IngressTLS)
    (hperm : l1.Perm l2)
    (hgood : ∀ t ∈ l1, t.secretName ≠ "" → ∃ c, fetchCert client ns t.secretName = .ok c) :
    getTLSConfig (getTLSSections client ns l1 []).1 =
      getTLSConfig (getTLSSections client ns l2 []).1 ∧
    ∃ ks : List String,
      ks.Sorted (· < ·) ∧
      ks.Perm (((getTLSSections client ns l1 []).1).map Prod.fst) ∧
      getTLSConfig (getTLSSections client ns l1 []).1 =
        ks.filterMap (fun k => mapLookup k (getTLSSections client ns l1 []).1) ∧
      (getTLSConfig (getTLSSections client ns l1 []).1).length = ks.length := by
  have hgood2 : ∀ t ∈ l2, t.secretName ≠ "" → ∃ c, fetchCert client ns t.secretName = .ok c :=
    fun t ht => hgood t (hperm.mem_iff.mpr ht)
  have hlook : ∀ k, mapLookup k (getTLSSections client ns l1 []).1 =
      mapLookup k (getTLSSections client ns l2 []).1 := by
    intro k
    rw [getTLSSections_lookup client ns l1 [] k hgood,
      getTLSSections_lookup client ns l2 [] k hgood2]
    show (Option.none.or (specCacheLookup client ns l1 k)) =
      (Option.none.or (specCacheLookup client ns l2 k))
    rw [Option.none_or, Option.none_or]
    exact specCacheLookup_perm client ns l1 l2 hperm k
  have hnd1 : (((getTLSSections client ns l1 []).1).map Prod.fst).Nodup :=
    getTLSSections_nodupKeys client ns l1 [] (by simp)
  have hnd2 : (((getTLSSections client ns l2 []).1).map Prod.fst).Nodup :=
    getTLSSections_nodupKeys client ns l2 [] (by simp)
  have hkeysperm : (((getTLSSections client ns l1 []).1).map Prod.fst).Perm
      (((getTLSSections client ns l2 []).1).map Prod.fst) := by
    rw [List.perm_ext_iff_of_nodup hnd1 hnd2]
    intro a
    rw [← mapLookup_isSome_iff_mem, ← mapLookup_isSome_iff_mem, hlook a]
  have hsorted : List.insertionSort (fun a b : String => a ≤ b)
        (((getTLSSections client ns l1 []).1).map Prod.fst) =
      List.insertionSort (fun a b : String => a ≤ b)
        (((getTLSSections client ns l2 []).1).map Prod.fst) := by
    exact @List.eq_of_perm_of_sorted String (fun a b : String => a ≤ b) inferInstance _ _
      (((List.perm_insertionSort _ _).trans hkeysperm).trans
        (List.perm_insertionSort _ _).symm)
      (List.sorted_insertionSort _ _) (List.sorted_insertionSort _ _)
  constructor
  · simp only [getTLSConfig]
    rw [hsorted]
    have hfun : (fun k => mapLookup k (getTLSSections client ns l1 []).1) =
        (fun k => mapLookup k (getTLSSections client ns l2 []).1) := funext hlook
    rw [hfun]
  · refine ⟨List.insertionSort (fun a b : String => a ≤ b)
      (((getTLSSections client ns l1 []).1).map Prod.fst), ?_, ?_, ?_, ?_⟩
    · exact List.Sorted.lt_of_le (List.sorted_insertionSort _ _)
        (((List.perm_insertionSort _ _).nodup_iff).mpr hnd1)
    · exact List.perm_insertionSort _ _
    · rfl
    · simp only [getTLSConfig]
      apply length_filterMap_of_isSome
      intro k hk
      rw [mapLookup_isSome_iff_mem]
      exact (List.perm_insertionSort _ _).mem_iff.mp hk

/-- Witness for C6 at a concrete input: the secrets `b-secret` and
`a-secret`, referenced in either order, produce the same certificate list
(ordered `a-secret` first). -/
theorem getTLSConfig_sorted_dedup_deterministic_witness :
    getTLSConfig (getTLSSections c6Client "ns" [⟨"b-secret"⟩, ⟨"a-secret"⟩] []).1 =
      getTLSConfig (getTLSSections c6Client "ns" [⟨"a-secret"⟩, ⟨"b-secret"⟩] []).1 :=
  (getTLSConfig_sorted_dedup_deterministic c6Client "ns"
    [⟨"b-secret"⟩, ⟨"a-secret"⟩] [⟨"a-secret"⟩, ⟨"b-secret"⟩]
    (List.Perm.swap _ _ _)
    (by
      intro t ht hne
      simp only [List.mem_cons, List.not_mem_nil, or_false] at ht
      rcases ht with rfl | rfl
      · exact ⟨⟨⟨"CERT-b-secret", "KEY-b-secret"⟩, []⟩, rfl⟩
      · exact ⟨⟨⟨"CERT-a-secret", "KEY-a-secret"⟩, []⟩, rfl⟩)).1

/-- Witness for the amended C3 at a concrete input: with no filter
configured, the default class annotation is accepted. -/
theorem shouldProcessIngress_characterization_witness :
    shouldProcessIngress "" "traefik" = true ↔
      (("traefik" : String) = "" ∨ (("" : String) = "" ∧ ("traefik" : String) = traefikDefaultIngressClass)) :=
  shouldProcessIngress_characterization "" "traefik"

/-- Witness for C10 at a concrete input. -/
theorem getTLS_skips_empty_secret_name_witness :
    getTLSSections c5Client "ns" (⟨""⟩ :: [⟨"good"⟩]) [] =
      getTLSSections c5Client "ns" [⟨"good"⟩] [] :=
  getTLS_skips_empty_secret_name c5Client "ns" [⟨"good"⟩] []
